import Mathlib

/-!
Verification of the kvix storage engine core (repository `iamBelugaa/kvix`).

This file shallowly embeds the storage layer (`internal/storage/storage.go`,
the block importing `github.com/iamBelugaa/kvix`), the in-memory index
(`internal/index/index.go`, kvix block, and the kvix `RecordPointer` model),
the engine coordinator (kvix `engine` package), the segment filename codec
(kvix `pkg/seginfo`) and the option setters (kvix `pkg/options`).

Bytes are modelled as `Nat` (kept below 256 by every encoder), files as
`List Nat`, Go `int64` values as `Int`, and Go `uint16`/`uint32` values as
`Nat` with explicit `% 2 ^ 16` / `% 2 ^ 32` where wrap-around matters.
Filesystem writes are modelled by appending to the in-memory file image;
I/O failures are injected through explicit outcome parameters.
-/

namespace Kvix

/-! ## Little-endian integer codec (Go `encoding/binary`, little endian) -/

/-- Little-endian byte encoding of `n` on `w` bytes, as written by
`binary.Write(..., binary.LittleEndian, ...)` for fixed-width fields. -/
def toLE : Nat → Nat → List Nat
  | 0, _ => []
  | w + 1, n => n % 256 :: toLE w (n / 256)

/-- Little-endian byte decoding, as read by `binary.Read`. -/
def fromLE : List Nat → Nat
  | [] => 0
  | b :: bs => b + 256 * fromLE bs

/-! ## CRC32/IEEE (`pkg/checksum`, Go `hash/crc32` with the IEEE table) -/

/-- One shift-xor round of the reflected CRC32 computation with the IEEE
polynomial 0xEDB88320 (what the `crc32.IEEE` table precomputes). -/
def crcRound (c : Nat) : Nat :=
  if c % 2 = 1 then (c / 2) ^^^ 0xEDB88320 else c / 2

/-- Feed one byte into the CRC32 state (`crc32.Update` for a single byte). -/
def crc32Byte (c b : Nat) : Nat :=
  crcRound^[8] (c ^^^ (b % 256))

/-- Model of `checksum.NewCRC32IEEE().Calculate(data)` = Go `crc32.Checksum(data, IEEE)`. -/
def crc32 (data : List Nat) : Nat :=
  (data.foldl crc32Byte 0xFFFFFFFF) ^^^ 0xFFFFFFFF

/-! ## Protobuf varints (`google.golang.org/protobuf` wire format, LEB128) -/

/-- Worker for `varintEncode`; the first argument is structural fuel, and
`n + 1` always suffices since the value shrinks by a factor 128 per byte. -/
def varintEncodeAux : Nat → Nat → List Nat
  | 0, _ => []
  | fuel + 1, n =>
    if n < 128 then [n] else (n % 128 + 128) :: varintEncodeAux fuel (n / 128)

/-- Protobuf base-128 varint encoding of an unsigned integer. -/
def varintEncode (n : Nat) : List Nat := varintEncodeAux (n + 1) n

/-- Protobuf varint decoding from the front of a byte list; returns the value
and the remaining bytes. -/
def varintDecode : List Nat → Option (Nat × List Nat)
  | [] => none
  | b :: rest =>
    if b < 128 then some (b, rest)
    else
      match varintDecode rest with
      | some (n, rest2) => some ((b - 128) + 128 * n, rest2)
      | none => none

/-! ## The record payload codec (`Record.MarshalProto` / `Record.UnMarshalProto`)

The payload is the deterministic protobuf marshalling of a two-field message
`Record { key: bytes = 1; value: bytes = 2 }`.  Deterministic proto3
marshalling emits the fields in field-number order and omits empty `bytes`
fields. -/

/-- Model of `Record.MarshalProto`: deterministic protobuf encoding of `{key, value}`. -/
def marshalKV (k v : List Nat) : List Nat :=
  (if k = [] then [] else 10 :: (varintEncode k.length ++ k)) ++
    (if v = [] then [] else 18 :: (varintEncode v.length ++ v))

/-- Protobuf wire-format parser for the `{key, value}` message, mirroring
`proto.UnmarshalOptions{DiscardUnknown: true}.Unmarshal`: unknown fields of
wire types 0/1/2/5 are skipped, later occurrences of a field win, and any
malformed tag, truncated length-delimited field or unsupported wire type is
a parse error.  The fuel argument is a termination device; every iteration
consumes at least one byte, so `bs.length` fuel always suffices. -/
def protoParse : Nat → List Nat → Option (List Nat) → Option (List Nat) →
    Option (Option (List Nat) × Option (List Nat))
  | _, [], k, v => some (k, v)
  | 0, _ :: _, _, _ => none
  | fuel + 1, bs, k, v =>
    match varintDecode bs with
    | none => none
    | some (tag, rest) =>
      let fieldNum := tag / 8
      let wireType := tag % 8
      if wireType = 2 then
        match varintDecode rest with
        | none => none
        | some (len, rest2) =>
          if len ≤ rest2.length then
            let data := rest2.take len
            let rest3 := rest2.drop len
            if fieldNum = 1 then protoParse fuel rest3 (some data) v
            else if fieldNum = 2 then protoParse fuel rest3 k (some data)
            else protoParse fuel rest3 k v
          else none
      else if wireType = 0 then
        match varintDecode rest with
        | none => none
        | some (_, rest2) => protoParse fuel rest2 k v
      else if wireType = 1 then
        if 8 ≤ rest.length then protoParse fuel (rest.drop 8) k v else none
      else if wireType = 5 then
        if 4 ≤ rest.length then protoParse fuel (rest.drop 4) k v else none
      else none

/-- Model of `Record.UnMarshalProto`: parse the payload, then reject a `nil` key or a
`nil` value (`ErrNilKey` / `ErrNilValue`); a field that never appeared on the
wire is `nil` in Go. -/
def unmarshalProto (bs : List Nat) : Option (List Nat × List Nat) :=
  match protoParse bs.length bs none none with
  | none => none
  | some (k, v) =>
    match k, v with
    | some k, some v => some (k, v)
    | _, _ => none

/-! ## Record header (`RecordHeader` in `internal/storage/model.go`)

On disk (little endian, `binary.Size = 17`):
checksum `uint32`, payloadSize `uint32`, timestamp `int64`, version `uint8`. -/

structure RecordHeader where
  checksum : Nat
  payloadSize : Nat
  timestamp : Int
  version : Nat
  deriving DecidableEq, Repr

/-- Two's-complement image of an `int64` as an unsigned 64-bit value. -/
def int64Bits (t : Int) : Nat := (t % (2 ^ 64 : Int)).toNat

/-- Signed reading of an unsigned 64-bit value. -/
def bitsToInt64 (n : Nat) : Int :=
  if n < 2 ^ 63 then (n : Int) else (n : Int) - 2 ^ 64

/-- The 17 header bytes written by `binary.Write(s.activeSegment,
binary.LittleEndian, record.Header)`. -/
def encodeRecordHeader (h : RecordHeader) : List Nat :=
  toLE 4 h.checksum ++ toLE 4 h.payloadSize ++ toLE 8 (int64Bits h.timestamp)
    ++ [h.version % 256]

/-- The header read back by `binary.Read` from 17 bytes. -/
def decodeRecordHeader (bs : List Nat) : RecordHeader :=
  { checksum := fromLE (bs.take 4)
    payloadSize := fromLE ((bs.drop 4).take 4)
    timestamp := bitsToInt64 (fromLE ((bs.drop 8).take 8))
    version := (bs.drop 16).headD 0 }

/-! ## Errors (`pkg/errors` codes, restricted to those these paths produce) -/

inductive KvErr where
  | engineClosed            -- engine.ErrEngineClosed
  | indexKeyNotFound        -- errors.ErrIndexKeyNotFound
  | systemInternal          -- errors.ErrSystemInternal
  | recordHeaderReadFailed  -- errors.ErrRecordHeaderReadFailed
  | recordHeaderWriteFailed -- errors.ErrRecordHeaderWriteFailed
  | recordPayloadReadFailed -- errors.ErrRecordPayloadReadFailed
  | recordPayloadWriteFailed -- errors.ErrRecordPayloadWriteFailed
  | recordDeserialization   -- errors.ErrRecordDeserialization
  | recordChecksumMismatch  -- errors.ErrRecordChecksumMismatch
  | recordPayloadTooLarge   -- errors.ErrRecordPayloadTooLarge
  | validationInvalidData   -- errors.ErrValidationInvalidData
  | systemUnsupportedVersion -- errors.ErrSystemUnsupportedVersion
  | ioWriteFailed           -- errors.ErrIOWriteFailed
  | ioCloseFailed           -- errors.ErrIOCloseFailed
  | ioGeneral               -- errors.ErrIOGeneral
  deriving DecidableEq, Repr

/-! ## Option bounds (`pkg/options/defaults.go`) -/

def maxValueSize : Nat := 100 * 1024 * 1024
def minSchemaVersion : Nat := 1
def maxSchemaVersion : Nat := 255
def minSegmentSize : Nat := 512 * 1024 * 1024
def maxSegmentSize : Nat := 4 * 1024 * 1024 * 1024
def defaultSegmentSize : Nat := 1 * 1024 * 1024 * 1024
/-- Model of `DefaultCompactInterval = time.Hour * 5`, in nanoseconds. -/
def defaultCompactInterval : Int := 5 * 3600 * 1000000000
/-- Model of `MaxCompactInterval = 168 * time.Hour`, in nanoseconds (defined in the
source but referenced by no setter). -/
def maxCompactInterval : Int := 168 * 3600 * 1000000000

/-! ## Storage (`internal/storage`, the kvix block of `storage.go`) -/

/-- A complete record as `storage.Record` (header plus decoded key/value). -/
structure Rec where
  header : RecordHeader
  key : List Nat
  value : List Nat
  deriving DecidableEq, Repr

/-- Mutable storage fields used by the write/read paths.  The active segment
file is its in-memory byte image; the fd position is not modelled (reads are
positional, and every append lands at end-of-file under `O_APPEND`). -/
structure StorageState where
  file : List Nat
  currentOffset : Nat
  activeSegmentID : Nat
  activeSegmentCreatedAt : Int
  deriving DecidableEq, Repr

/-- Injected outcome of the two writes inside `Storage.Set` (`binary.Write`
of the header, then `File.Write` of the payload).  `shortWrite n` is a
payload write that reports success after `n < len(encoded)` bytes. -/
inductive WriteOutcome where
  | ok
  | headerFail
  | payloadFail
  | shortWrite (n : Nat)
  deriving DecidableEq, Repr

/-- The header `Storage.Set` builds for `(key, value)` at Unix-nanosecond
instant `now`: `Timestamp = time.Now().Unix()` (seconds), `Version =
options.CurrentSchemaVersion = 1`, then `PayloadSize` and `Checksum` from the
marshalled payload. -/
def mkHeader (k v : List Nat) (now : Int) : RecordHeader :=
  { checksum := crc32 (marshalKV k v)
    payloadSize := (marshalKV k v).length
    timestamp := Int.tdiv now 1000000000
    version := 1 }

/-- Model of `Storage.Set` (storage.go, kvix block lines 490-566): capture
`recordOffset = currentOffset`, marshal, write header then payload, and
return `(record, recordOffset)`.  This version computes
`totalSize = headerSize + len(encoded)` but only logs it: it never executes
`s.currentOffset += ...`, so the tracked offset does not advance (the
advance exists only in the ignite sibling blocks of the same file).
`MarshalProto` of raw bytes fields cannot fail, so the serialization error
branch is unreachable; write failures are injected via `w`. -/
def storageSet (st : StorageState) (k v : List Nat) (now : Int)
    (w : WriteOutcome) : StorageState × Except KvErr (Rec × Nat) :=
  let recordOffset := st.currentOffset
  let encoded := marshalKV k v
  let h := mkHeader k v now
  match w with
  | .headerFail => (st, .error .recordHeaderWriteFailed)
  | .payloadFail =>
      ({ st with file := st.file ++ encodeRecordHeader h },
       .error .recordPayloadWriteFailed)
  | .shortWrite n =>
      ({ st with file := st.file ++ encodeRecordHeader h ++ encoded.take n },
       .error .ioWriteFailed)
  | .ok =>
      ({ st with file := st.file ++ encodeRecordHeader h ++ encoded },
       .ok ({ header := h, key := k, value := v }, recordOffset))

/-- Steps 1-6 of `Storage.Get` once the source file image is chosen: header
read through a 17-byte section reader, header sanity checks, payload read
(the `< 1 MiB` direct-read and `>= 1 MiB` buffered strategies succeed and
fail identically on the byte level), protobuf decode, and checksum
verification by deterministic re-marshalling.  The requested key is used only
for logging: the kvix `Get` never compares it with the decoded key. -/
def readRecordAt (file : List Nat) (offset : Nat) : Except KvErr Rec :=
  let avail := file.length - offset
  -- binary.Read via io.ReadFull: 0 bytes -> io.EOF (matched by errors.Is,
  -- reported as ErrSystemInternal); 1-16 bytes -> io.ErrUnexpectedEOF, which
  -- is not io.EOF, so it falls through to ErrRecordHeaderReadFailed.
  if avail = 0 then .error .systemInternal
  else if avail < 17 then .error .recordHeaderReadFailed
  else
    let h := decodeRecordHeader ((file.drop offset).take 17)
    if h.payloadSize = 0 then .error .validationInvalidData
    else if maxValueSize < h.payloadSize then .error .recordPayloadTooLarge
    else if h.version < minSchemaVersion ∨ maxSchemaVersion < h.version then
      .error .systemUnsupportedVersion
    else
      let pOff := offset + 17
      let pSize := h.payloadSize
      let payload :=
        if pSize < 1048576 then
          -- readSmallPayload: File.ReadAt; a short read (or EOF before
          -- pSize bytes) is ErrRecordPayloadReadFailed.
          if pOff + pSize ≤ file.length then .ok ((file.drop pOff).take pSize)
          else Except.error KvErr.recordPayloadReadFailed
        else
          -- readLargePayload: io.Copy from a section reader stops at EOF
          -- with a nil error, so a short copy surfaces as the plain
          -- "payload size mismatch" error -> ErrRecordPayloadReadFailed.
          if pOff + pSize ≤ file.length then .ok ((file.drop pOff).take pSize)
          else Except.error KvErr.recordPayloadReadFailed
      match payload with
      | .error e => .error e
      | .ok buf =>
        match unmarshalProto buf with
        | none => .error .recordDeserialization
        | some (k, v) =>
          -- VerifyChecksum: re-marshal the decoded record and compare CRC32.
          if crc32 (marshalKV k v) = h.checksum then
            .ok { header := h, key := k, value := v }
          else .error .recordChecksumMismatch

/-- Contents of historical segments as served by the handle pool, keyed by
`(segmentID, segmentTimestamp)`; `none` models an open failure, which the
pool reports as an `ErrIOGeneral` storage error. -/
def SegmentPool : Type := Nat → Int → Option (List Nat)

/-- Model of `Storage.Get` body before the deferred re-seek: choose the active image
or a pool handle, then read the record. -/
def storageGetBody (st : StorageState) (pool : SegmentPool)
    (segmentID : Nat) (segmentTimestamp : Int) (offset : Nat) :
    Except KvErr Rec :=
  if segmentID = st.activeSegmentID then readRecordAt st.file offset
  else
    match pool segmentID segmentTimestamp with
    | none => .error .ioGeneral
    | some f => readRecordAt f offset

/-- Model of `Storage.Get` (storage.go, kvix block lines 568-707), with its deferred
`_, err = s.activeSegment.Seek(0, io.SeekEnd)`.  For an active-segment read
the deferred assignment overwrites the named `err` return with the seek
result; segment-file seeks succeed in this model, so every active-segment
failure leaves the body's error replaced by `nil` and the caller sees
`(nil, nil)`.  Historical reads have no deferred seek and propagate the
body's result.  The requested key is unused beyond logging. -/
def storageGet (st : StorageState) (pool : SegmentPool) (_key : List Nat)
    (segmentID : Nat) (segmentTimestamp : Int) (offset : Nat) :
    Option Rec × Option KvErr :=
  let body := storageGetBody st pool segmentID segmentTimestamp offset
  if segmentID = st.activeSegmentID then
    (body.toOption, none)
  else
    match body with
    | .ok r => (some r, none)
    | .error e => (none, some e)

/-- Injected outcome of `Sync`/`Close` inside `Storage.Close`. -/
inductive CloseOutcome where
  | ok
  | syncFail
  | closeFail
  deriving DecidableEq, Repr

/-- Model of `Storage.Close` (kvix block): a sync failure and a close failure are both
reported as `ErrIOCloseFailed` in this version. -/
def storageClose (c : CloseOutcome) : Except KvErr Unit :=
  match c with
  | .ok => .ok ()
  | .syncFail => .error .ioCloseFailed
  | .closeFail => .error .ioCloseFailed

/-! ## Index (`internal/index`, kvix blocks) -/

/-- Model of `index.RecordPointer`: `ExpiresAt` is Unix **nanoseconds** (0 = no
expiry) per its own documentation and per `Engine.SetX`. -/
structure RecordPointer where
  expiresAt : Int
  offset : Nat
  segmentTimestamp : Int
  segmentID : Nat
  deriving DecidableEq, Repr

/-- Model of `RecordPointer.IsExpired` at Unix-nanosecond instant `now`: the source
compares `time.Now().UnixMilli() > rp.ExpiresAt`, i.e. the **millisecond**
clock against the nanosecond field. -/
def isExpired (now : Int) (rp : RecordPointer) : Bool :=
  if rp.expiresAt = 0 then false
  else decide (Int.tdiv now 1000000 > rp.expiresAt)

/-- Go map lookup on the association-list image of `recordPointer`. -/
def lookupKey : List (List Nat × RecordPointer) → List Nat →
    Option RecordPointer
  | [], _ => none
  | (k', p) :: rest, k => if k' = k then some p else lookupKey rest k

/-- Go map assignment (replace or insert). -/
def setKey : List (List Nat × RecordPointer) → List Nat → RecordPointer →
    List (List Nat × RecordPointer)
  | [], k, p => [(k, p)]
  | (k', p') :: rest, k, p =>
    if k' = k then (k, p) :: rest else (k', p') :: setKey rest k p

/-- Go map `delete`. -/
def deleteKey (m : List (List Nat × RecordPointer)) (k : List Nat) :
    List (List Nat × RecordPointer) :=
  m.filter (fun kv => kv.1 ≠ k)

/-- The index map; `none` is the `nil` map that `Index.Close` installs. -/
abbrev IndexState : Type := Option (List (List Nat × RecordPointer))

/-- Model of `Index.Set`: assignment into the map.  Assigning into a `nil` Go map
does not return normally (runtime panic), modelled as `none`. -/
def indexSet (idx : IndexState) (k : List Nat) (p : RecordPointer) :
    Option IndexState :=
  match idx with
  | none => none
  | some m => some (some (setKey m k p))

/-- Model of `Index.Get` at Unix-nanosecond instant `now`: miss on absent key (reads
of a `nil` map are safe misses), lazy deletion and miss on an expired
pointer, otherwise a hit. -/
def indexGet (idx : IndexState) (k : List Nat) (now : Int) :
    IndexState × Option RecordPointer :=
  match idx with
  | none => (none, none)
  | some m =>
    match lookupKey m k with
    | none => (some m, none)
    | some p =>
      if isExpired now p then (some (deleteKey m k), none)
      else (some m, some p)

/-- Model of `Index.Delete`: `false` on absent key (also on the `nil` map), else
delete and `true`. -/
def indexDelete (idx : IndexState) (k : List Nat) : IndexState × Bool :=
  match idx with
  | none => (none, false)
  | some m =>
    match lookupKey m k with
    | none => (some m, false)
    | some _ => (some (deleteKey m k), true)

/-- Model of `Index.CleanupExpired`: sweep out expired entries (iterating a `nil` map
does nothing). -/
def indexCleanup (idx : IndexState) (now : Int) : IndexState :=
  match idx with
  | none => none
  | some m => some (m.filter (fun kv => !isExpired now kv.2))

/-- Model of `Index.Close`: clear the map and set it to `nil`; always returns `nil`. -/
def indexClose (_idx : IndexState) : IndexState := none

/-! ## Engine (the kvix `engine` package) -/

structure EngineState where
  closed : Bool
  index : IndexState
  storage : StorageState
  deriving DecidableEq, Repr

/-- Model of `Engine.Set` at Unix-nanosecond instant `now`: closed check, storage
append, then index insert with `ExpiresAt = 0`.  The outer `Option` is
`none` when the index insert panics (nil map); `some (state, err)` mirrors
the Go return. -/
def engineSet (e : EngineState) (k v : List Nat) (now : Int)
    (w : WriteOutcome) : Option (EngineState × Option KvErr) :=
  if e.closed then some (e, some .engineClosed)
  else
    let (st', r) := storageSet e.storage k v now w
    match r with
    | .error err => some ({ e with storage := st' }, some err)
    | .ok (_, offset) =>
      match indexSet e.index k
        { expiresAt := 0
          offset := offset
          segmentTimestamp := st'.activeSegmentCreatedAt
          segmentID := st'.activeSegmentID } with
      | none => none
      | some idx' => some ({ e with storage := st', index := idx' }, none)

/-- Model of `Engine.SetX`: as `Engine.Set` but `ExpiresAt =
time.Now().Add(ttl).UnixNano() = now + ttl` and the record is returned. -/
def engineSetX (e : EngineState) (k v : List Nat) (now ttl : Int)
    (w : WriteOutcome) : Option (EngineState × (Option Rec × Option KvErr)) :=
  if e.closed then some (e, (none, some .engineClosed))
  else
    let (st', r) := storageSet e.storage k v now w
    match r with
    | .error err => some ({ e with storage := st' }, (none, some err))
    | .ok (rec, offset) =>
      match indexSet e.index k
        { expiresAt := now + ttl
          offset := offset
          segmentTimestamp := st'.activeSegmentCreatedAt
          segmentID := st'.activeSegmentID } with
      | none => none
      | some idx' =>
        some ({ e with storage := st', index := idx' }, (some rec, none))

/-- Model of `Engine.Get` at Unix-nanosecond instant `now`: closed check, index
lookup (miss is `ErrIndexKeyNotFound`), then `Storage.Get` at the locator,
propagating its `(record, err)` pair. -/
def engineGet (e : EngineState) (pool : SegmentPool) (k : List Nat)
    (now : Int) : Option (EngineState × (Option Rec × Option KvErr)) :=
  if e.closed then some (e, (none, some .engineClosed))
  else
    match indexGet e.index k now with
    | (idx', none) => some ({ e with index := idx' }, (none, some .indexKeyNotFound))
    | (idx', some p) =>
      let (r, err) :=
        storageGet e.storage pool k p.segmentID p.segmentTimestamp p.offset
      match err with
      | some er => some ({ e with index := idx' }, (none, some er))
      | none => some ({ e with index := idx' }, (r, none))

/-- Model of `Engine.Delete`: closed check, then index-only removal. -/
def engineDelete (e : EngineState) (k : List Nat) :
    EngineState × Bool × Option KvErr :=
  if e.closed then (e, false, some .engineClosed)
  else
    let (idx', b) := indexDelete e.index k
    ({ e with index := idx' }, b, none)

/-- Model of `Engine.Exists`: closed check, then `index.Get` (which lazily evicts). -/
def engineExists (e : EngineState) (k : List Nat) (now : Int) :
    EngineState × Bool × Option KvErr :=
  if e.closed then (e, false, some .engineClosed)
  else
    let (idx', r) := indexGet e.index k now
    ({ e with index := idx' }, r.isSome, none)

/-- Model of `Engine.CleanupExpired`. -/
def engineCleanup (e : EngineState) (now : Int) :
    EngineState × Option KvErr :=
  if e.closed then (e, some .engineClosed)
  else ({ e with index := indexCleanup e.index now }, none)

/-- Model of `Engine.Close`: `closed.CompareAndSwap(false, true)` rejects a second
close; otherwise close the index (always `nil`) then the storage. -/
def engineClose (e : EngineState) (c : CloseOutcome) :
    EngineState × Option KvErr :=
  if e.closed then (e, some .engineClosed)
  else
    let e' := { e with closed := true, index := indexClose e.index }
    match storageClose c with
    | .error err => (e', some err)
    | .ok _ => (e', none)

/-! ## Segment filename codec (kvix `pkg/seginfo`)

Filenames are modelled as `List Char`. -/

/-- Decimal digit character (`0 ≤ d ≤ 9`). -/
def digCh : Nat → Char
  | 0 => '0' | 1 => '1' | 2 => '2' | 3 => '3' | 4 => '4'
  | 5 => '5' | 6 => '6' | 7 => '7' | 8 => '8' | 9 => '9'
  | _ => '*'

/-- Worker for `natDigits`; the first argument is structural fuel, and
`n + 1` always suffices. -/
def natDigitsAux : Nat → Nat → List Char
  | 0, _ => []
  | fuel + 1, n =>
    if n < 10 then [digCh n] else natDigitsAux fuel (n / 10) ++ [digCh (n % 10)]

/-- Decimal digits of a natural number (`fmt.Sprintf("%d", n)`). -/
def natDigits (n : Nat) : List Char := natDigitsAux (n + 1) n

/-- Model of `fmt.Sprintf("%05d", n)`: zero-pad to width 5 (wider numbers are printed
in full). -/
def pad5 (n : Nat) : List Char :=
  List.replicate (5 - (natDigits n).length) '0' ++ natDigits n

/-- Model of `fmt.Sprintf("%d", t)` for an `int64`. -/
def intDigits (t : Int) : List Char :=
  if t < 0 then '-' :: natDigits (-t).toNat else natDigits t.toNat

/-- Model of `GenerateNameWithTimestamp(id, prefix, timestamp)`:
`""` for an empty prefix, else `fmt.Sprintf("%s_%05d_%d.seg", ...)`. -/
def generateNameWithTimestamp (id : Nat) (pfx : List Char) (timestamp : Int) :
    List Char :=
  if pfx = [] then []
  else pfx ++ '_' :: pad5 id ++ '_' :: intDigits timestamp
    ++ ['.', 's', 'e', 'g']

/-- The file part of `filepath.Split`: everything after the last `/`. -/
def baseName (s : List Char) : List Char :=
  (s.reverse.takeWhile (fun c => c ≠ '/')).reverse

/-- Model of `strings.HasPrefix s pfx` (arguments: candidate first). -/
def hasPfx : List Char → List Char → Bool
  | _, [] => true
  | [], _ :: _ => false
  | c :: cs, p :: ps => p = c && hasPfx cs ps

/-- Model of `strings.Split` on a single-character separator. -/
def splitChar (sep : Char) : List Char → List (List Char)
  | [] => [[]]
  | c :: cs =>
    match splitChar sep cs with
    | [] => if c = sep then [[], []] else [[c]]
    | h :: t => if c = sep then [] :: h :: t else (c :: h) :: t

/-- Decimal accumulation of `strconv.Atoi`'s digit loop; `none` on any
non-digit character. -/
def digitsAux (acc : Nat) : List Char → Option Nat
  | [] => some acc
  | c :: cs =>
    if c.isDigit then digitsAux (acc * 10 + (c.toNat - 48)) cs else none

/-- Unsigned decimal parse; empty input is an error. -/
def digitsToNat (s : List Char) : Option Nat :=
  match s with
  | [] => none
  | _ :: _ => digitsAux 0 s

/-- Model of `strconv.Atoi` (sign handling; 64-bit overflow is not modelled, all
values in scope fit an `int64`). -/
def atoi (s : List Char) : Option Int :=
  match s with
  | [] => none
  | c :: rest =>
    if c = '-' then (digitsToNat rest).map (fun n => -(n : Int))
    else if c = '+' then (digitsToNat rest).map (fun n => (n : Int))
    else (digitsToNat (c :: rest)).map (fun n => (n : Int))

/-- Go's `uint16(i)` conversion of an `int`. -/
def u16ofInt (i : Int) : Nat := (i % (65536 : Int)).toNat

/-- Model of `ParseSegmentID(fullPath, prefix)`: strip the directory, check and trim
the prefix, cut at the first `.`, split on `_`, require at least 3 parts and
parse part 1 as the id (converted to `uint16`).  Errors are collapsed to
`Unit`. -/
def parseSegmentID (fullPath pfx : List Char) : Except Unit Nat :=
  let filename := baseName fullPath
  if hasPfx filename pfx then
    let withoutPfx := filename.drop pfx.length
    let withoutExt := (splitChar '.' withoutPfx).headD []
    let parts := splitChar '_' withoutExt
    if parts.length < 3 then .error ()
    else
      match atoi (parts.getD 1 []) with
      | none => .error ()
      | some i => .ok (u16ofInt i)
  else .error ()

/-- Model of `ParseSegmentTimestamp(fullPath, prefix)`: same shape, parsing part 2 as
the `int64` timestamp. -/
def parseSegmentTimestamp (fullPath pfx : List Char) : Except Unit Int :=
  let filename := baseName fullPath
  if hasPfx filename pfx then
    let withoutPfx := filename.drop pfx.length
    let withoutExt := (splitChar '.' withoutPfx).headD []
    let parts := splitChar '_' withoutExt
    if parts.length < 3 then .error ()
    else
      match atoi (parts.getD 2 []) with
      | none => .error ()
      | some i => .ok i
  else .error ()

/-! ## Storage construction (`storage.New`, kvix block lines 362-476) -/

/-- What `seginfo.GetLastSegmentInfo` discovered about the
lexicographically-last existing segment: its parsed id, its file size and its
filename. -/
structure DiscoveredSeg where
  id : Nat
  size : Nat
  name : List Char
  deriving DecidableEq, Repr

/-- The initialization outcome recorded into the new `Storage`. -/
structure InitResult where
  activeSegmentID : Nat
  activeSegmentCreatedAt : Int
  currentOffset : Nat
  isNewSegment : Bool
  deriving DecidableEq, Repr

/-- The decision logic of `storage.New` after segment discovery (`disc`,
`none` when no segment exists).  Ids are `uint16`, so the rotation increment
wraps modulo 2^16.  `isNewSegment := targetOffset == 0` selects
`O_CREATE|O_RDWR|O_APPEND` over `O_RDWR|O_APPEND`. -/
def storageNew (disc : Option DiscoveredSeg) (maxSize : Nat)
    (pfx : List Char) (now : Int) : Except KvErr InitResult :=
  match disc with
  | none =>
    .ok { activeSegmentID := 1, activeSegmentCreatedAt := now
          currentOffset := 0, isNewSegment := true }
  | some d =>
    if maxSize ≤ d.size then
      .ok { activeSegmentID := (d.id + 1) % 65536
            activeSegmentCreatedAt := now
            currentOffset := 0, isNewSegment := true }
    else
      match parseSegmentTimestamp d.name pfx with
      | .error _ => .error .systemInternal
      | .ok ts =>
        .ok { activeSegmentID := d.id, activeSegmentCreatedAt := ts
              currentOffset := d.size, isNewSegment := decide (d.size = 0) }

/-! ## Options (kvix `pkg/options`) -/

structure Options where
  dataDir : List Char
  compactInterval : Int
  segmentSize : Nat
  segmentDirectory : List Char
  segmentPfx : List Char
  deriving DecidableEq, Repr

/-- Model of `DefaultOptions()` from `pkg/options/defaults.go`. -/
def defaultOptions : Options :=
  { dataDir := []
    compactInterval := defaultCompactInterval
    segmentSize := defaultSegmentSize
    segmentDirectory := []
    segmentPfx := ['s', 'e', 'g', 'm', 'e', 'n', 't'] }

/-- Model of `WithCompactInterval(interval)`: the only guard in the source is
`interval > DefaultCompactInterval`; no upper bound is checked. -/
def withCompactInterval (interval : Int) (o : Options) : Options :=
  if defaultCompactInterval < interval then
    { o with compactInterval := interval }
  else o

/-- Model of `WithSegmentSize(size)`: strict bounds on both sides. -/
def withSegmentSize (size : Nat) (o : Options) : Options :=
  if minSegmentSize < size ∧ size < maxSegmentSize then
    { o with segmentSize := size }
  else o

/-! ## Concrete sample states used by evaluation theorems -/

def sampleStorage : StorageState :=
  { file := [], currentOffset := 0, activeSegmentID := 1
    activeSegmentCreatedAt := 5 }

def sampleEngine : EngineState :=
  { closed := false, index := some [], storage := sampleStorage }

def emptyPool : SegmentPool := fun _ _ => none

deriving instance DecidableEq for Except

/-- The engine state after `set_with_ttl("k", "v", 1ms)` against the fresh
sample engine at Unix-nanosecond instant 1700000000000000000. -/
def c2State : EngineState :=
  { closed := false
    index := some [([107], ⟨1700000000001000000, 0, 5, 1⟩)]
    storage :=
      { file := encodeRecordHeader (mkHeader [107] [118] 1700000000000000000)
          ++ marshalKV [107] [118]
        currentOffset := 0, activeSegmentID := 1
        activeSegmentCreatedAt := 5 } }

/-- The engine state after `set("k", "a")` on the fresh sample engine at
instant 0: the locator points at offset 0 and `currentOffset` is still 0. -/
def c1State1 : EngineState :=
  { closed := false
    index := some [([107], ⟨0, 0, 5, 1⟩)]
    storage :=
      { file := encodeRecordHeader (mkHeader [107] [97] 0)
          ++ marshalKV [107] [97]
        currentOffset := 0, activeSegmentID := 1
        activeSegmentCreatedAt := 5 } }

/-- The engine state after a further `set("k", "b")`: the second record is
appended on disk, but `currentOffset` is still 0 and the locator still
points at offset 0 — the first record. -/
def c1State2 : EngineState :=
  { closed := false
    index := some [([107], ⟨0, 0, 5, 1⟩)]
    storage :=
      { file := (encodeRecordHeader (mkHeader [107] [97] 0)
            ++ marshalKV [107] [97])
          ++ encodeRecordHeader (mkHeader [107] [98] 0)
          ++ marshalKV [107] [98]
        currentOffset := 0, activeSegmentID := 1
        activeSegmentCreatedAt := 5 } }

/-- The storage state after a clean `Set("k", "val")` at instant 0 on the
fresh sample storage. -/
def c3CleanStorage : StorageState :=
  (storageSet sampleStorage [107] [118, 97, 108] 0 .ok).1

/-- State `c3CleanStorage` with one byte of the payload region flipped on disk
(the last payload byte, index 17 + 7, changed from 108 to 109). -/
def c3Corrupted : StorageState :=
  { c3CleanStorage with file := c3CleanStorage.file.set 24 109 }

set_option maxRecDepth 100000

/-! ## Codec lemmas -/

theorem toLE_length (w n : Nat) : (toLE w n).length = w := by
  induction w generalizing n with
  | zero => rfl
  | succ w ih => simp [toLE, ih]

theorem fromLE_toLE (w n : Nat) : fromLE (toLE w n) = n % 256 ^ w := by
  induction w generalizing n with
  | zero => simp [toLE, fromLE, Nat.mod_one]
  | succ w ih =>
    have h256 : (0:Nat) < 256 := by norm_num
    have hq : n / 256 = 256 ^ w * (n / 256 / 256 ^ w) + n / 256 % 256 ^ w :=
      (Nat.div_add_mod _ _).symm
    have hn : n = 256 * (n / 256) + n % 256 := (Nat.div_add_mod _ _).symm
    have hsplit : n = 256 ^ (w + 1) * (n / 256 / 256 ^ w)
        + (256 * (n / 256 % 256 ^ w) + n % 256) := by
      calc n = 256 * (n / 256) + n % 256 := hn
        _ = 256 * (256 ^ w * (n / 256 / 256 ^ w) + n / 256 % 256 ^ w)
              + n % 256 := by rw [← hq]
        _ = 256 ^ (w + 1) * (n / 256 / 256 ^ w)
              + (256 * (n / 256 % 256 ^ w) + n % 256) := by ring
    have hlt : 256 * (n / 256 % 256 ^ w) + n % 256 < 256 ^ (w + 1) := by
      have h1 : n / 256 % 256 ^ w < 256 ^ w := Nat.mod_lt _ (Nat.pos_pow_of_pos w h256)
      have h2 : n % 256 < 256 := Nat.mod_lt _ h256
      have : 256 * (n / 256 % 256 ^ w) + n % 256 < 256 * (n / 256 % 256 ^ w) + 256 :=
        by omega
      have h3 : 256 * (n / 256 % 256 ^ w) + 256 ≤ 256 * 256 ^ w := by
        have := Nat.succ_le_of_lt h1
        calc 256 * (n / 256 % 256 ^ w) + 256 = 256 * (n / 256 % 256 ^ w + 1) := by ring
          _ ≤ 256 * 256 ^ w := Nat.mul_le_mul_left _ this
      calc 256 * (n / 256 % 256 ^ w) + n % 256
          < 256 * (n / 256 % 256 ^ w) + 256 := this
        _ ≤ 256 * 256 ^ w := h3
        _ = 256 ^ (w + 1) := by ring
    have hmod : n % 256 ^ (w + 1) = 256 * (n / 256 % 256 ^ w) + n % 256 := by
      conv_lhs => rw [hsplit]
      rw [Nat.mul_comm (256 ^ (w + 1)), Nat.add_comm,
        Nat.add_mul_mod_self_right]
      exact Nat.mod_eq_of_lt hlt
    simp only [toLE, fromLE, ih]
    omega

theorem fromLE_toLE_of_lt {w n : Nat} (h : n < 256 ^ w) :
    fromLE (toLE w n) = n := by
  rw [fromLE_toLE]; exact Nat.mod_eq_of_lt h

theorem bitsToInt64_int64Bits {t : Int} (h0 : -(2 ^ 63) ≤ t)
    (h1 : t < 2 ^ 63) : bitsToInt64 (int64Bits t) = t := by
  unfold bitsToInt64 int64Bits
  rcases le_or_lt 0 t with hpos | hneg
  · have hmod : t % (2 ^ 64 : Int) = t := by omega
    rw [hmod]
    have ht : t.toNat < 2 ^ 63 := by omega
    rw [if_pos (by exact_mod_cast ht)]
    omega
  · have hmod : t % (2 ^ 64 : Int) = t + 2 ^ 64 := by omega
    rw [hmod]
    have hge : ¬ ((t + 2 ^ 64).toNat < 2 ^ 63) := by omega
    rw [if_neg hge]
    omega

theorem int64Bits_lt (t : Int) : int64Bits t < 2 ^ 64 := by
  unfold int64Bits
  have : t % (2 ^ 64 : Int) < 2 ^ 64 := by omega
  omega

theorem crcRound_lt {c : Nat} (h : c < 2 ^ 32) : crcRound c < 2 ^ 32 := by
  unfold crcRound
  split
  · exact Nat.xor_lt_two_pow (by omega) (by norm_num)
  · omega

theorem crc32Byte_lt {c : Nat} (b : Nat) (h : c < 2 ^ 32) :
    crc32Byte c b < 2 ^ 32 := by
  unfold crc32Byte
  have hx : c ^^^ b % 256 < 2 ^ 32 :=
    Nat.xor_lt_two_pow h (by have := Nat.mod_lt b (show 0 < 256 by norm_num); omega)
  have hiter : ∀ m x, x < 2 ^ 32 → crcRound^[m] x < 2 ^ 32 := by
    intro m
    induction m with
    | zero => intro x hx; simpa using hx
    | succ m ih =>
      intro x hx
      rw [Function.iterate_succ_apply]
      exact ih _ (crcRound_lt hx)
  exact hiter 8 _ hx

theorem crc32_lt (data : List Nat) : crc32 data < 2 ^ 32 := by
  unfold crc32
  have hfold : ∀ (l : List Nat) (c : Nat), c < 2 ^ 32 →
      l.foldl crc32Byte c < 2 ^ 32 := by
    intro l
    induction l with
    | nil => intro c hc; simpa using hc
    | cons b rest ih =>
      intro c hc
      exact ih _ (crc32Byte_lt b hc)
  exact Nat.xor_lt_two_pow (hfold data _ (by norm_num)) (by norm_num)

theorem encodeRecordHeader_length (h : RecordHeader) :
    (encodeRecordHeader h).length = 17 := by
  simp [encodeRecordHeader, toLE_length]

theorem decode_encode_header {h : RecordHeader} (hc : h.checksum < 2 ^ 32)
    (hp : h.payloadSize < 2 ^ 32) (ht0 : -(2 ^ 63) ≤ h.timestamp)
    (ht1 : h.timestamp < 2 ^ 63) (hv : h.version < 256) :
    decodeRecordHeader (encodeRecordHeader h) = h := by
  obtain ⟨c, p, t, v⟩ := h
  simp only at hc hp ht0 ht1 hv
  have l4c : (toLE 4 c).length = 4 := toLE_length 4 _
  have l4p : (toLE 4 p).length = 4 := toLE_length 4 _
  have l8 : (toLE 8 (int64Bits t)).length = 8 := toLE_length 8 _
  have enc : encodeRecordHeader ⟨c, p, t, v⟩
      = toLE 4 c ++ (toLE 4 p ++ (toLE 8 (int64Bits t) ++ [v % 256])) := by
    simp [encodeRecordHeader]
  rw [enc]
  have htake4 : (toLE 4 c ++ (toLE 4 p ++ (toLE 8 (int64Bits t)
      ++ [v % 256]))).take 4 = toLE 4 c := List.take_left' l4c
  have hdrop4 : (toLE 4 c ++ (toLE 4 p ++ (toLE 8 (int64Bits t)
      ++ [v % 256]))).drop 4
      = toLE 4 p ++ (toLE 8 (int64Bits t) ++ [v % 256]) := List.drop_left' l4c
  have hdrop8 : (toLE 4 c ++ (toLE 4 p ++ (toLE 8 (int64Bits t)
      ++ [v % 256]))).drop 8
      = toLE 8 (int64Bits t) ++ [v % 256] := by
    rw [← List.append_assoc]
    exact List.drop_left' (by simp [l4c, l4p])
  have hdrop16 : (toLE 4 c ++ (toLE 4 p ++ (toLE 8 (int64Bits t)
      ++ [v % 256]))).drop 16 = [v % 256] := by
    rw [← List.append_assoc, ← List.append_assoc]
    exact List.drop_left' (by simp [l4c, l4p, l8])
  unfold decodeRecordHeader
  rw [htake4, hdrop4, hdrop8, hdrop16]
  have hcs : fromLE (toLE 4 c) = c :=
    fromLE_toLE_of_lt (by norm_num at hc ⊢; omega)
  have hps : fromLE ((toLE 4 p ++ (toLE 8 (int64Bits t)
      ++ [v % 256])).take 4) = p := by
    rw [List.take_left' l4p]
    exact fromLE_toLE_of_lt (by norm_num at hp ⊢; omega)
  have hts : fromLE ((toLE 8 (int64Bits t) ++ [v % 256]).take 8)
      = int64Bits t := by
    rw [List.take_left' l8]
    exact fromLE_toLE_of_lt (by
      have := int64Bits_lt t
      norm_num at this ⊢; omega)
  rw [hcs, hps, hts]
  simp [bitsToInt64_int64Bits ht0 ht1, Nat.mod_eq_of_lt hv]

theorem varintDecode_encodeAux (fuel : Nat) : ∀ (n : Nat) (rest : List Nat),
    n < fuel → varintDecode (varintEncodeAux fuel n ++ rest) = some (n, rest) := by
  induction fuel with
  | zero => intro n rest h; omega
  | succ fuel ih =>
    intro n rest h
    by_cases h128 : n < 128
    · simp [varintEncodeAux, h128, varintDecode]
    · have hlt : n / 128 < fuel := by omega
      have ihh := ih (n / 128) rest hlt
      have hb : ¬ (n % 128 + 128 < 128) := by omega
      simp only [varintEncodeAux, if_neg h128, List.cons_append, varintDecode,
        if_neg hb, List.append_eq, ihh, Option.some.injEq, Prod.mk.injEq]
      exact ⟨by omega, trivial⟩

theorem varintDecode_encode (n : Nat) (rest : List Nat) :
    varintDecode (varintEncode n ++ rest) = some (n, rest) :=
  varintDecode_encodeAux (n + 1) n rest (Nat.lt_succ_self n)

theorem varintEncode_ne_nil (n : Nat) : varintEncode n ≠ [] := by
  unfold varintEncode varintEncodeAux
  by_cases h : n < 128 <;> simp [h]

/-- Parsing the value field (`tag 18`) at the end of the payload. -/
theorem protoParse_value_field (v : List Nat) (k0 v0 : Option (List Nat))
    (fuel : Nat) (hf : 1 ≤ fuel) :
    protoParse fuel (18 :: (varintEncode v.length ++ v)) k0 v0
      = some (k0, some v) := by
  obtain ⟨fuel, rfl⟩ : ∃ m, fuel = m + 1 := ⟨fuel - 1, by omega⟩
  have h18 : varintDecode (18 :: (varintEncode v.length ++ v))
      = some (18, varintEncode v.length ++ v) := by
    simp [varintDecode]
  simp [protoParse, h18, varintDecode_encode]

/-- Parsing the full two-field payload. -/
theorem protoParse_marshal (k v : List Nat) (k0 v0 : Option (List Nat))
    (fuel : Nat) (hf : 2 ≤ fuel) :
    protoParse fuel
      (10 :: (varintEncode k.length ++ (k ++ (18
        :: (varintEncode v.length ++ v))))) k0 v0
      = some (some k, some v) := by
  obtain ⟨fuel, rfl⟩ : ∃ m, fuel = m + 1 := ⟨fuel - 1, by omega⟩
  have h10 : varintDecode (10 :: (varintEncode k.length ++ (k ++ (18
      :: (varintEncode v.length ++ v)))))
      = some (10, varintEncode k.length ++ (k ++ (18
        :: (varintEncode v.length ++ v)))) := by
    simp [varintDecode]
  simp [protoParse, h10, varintDecode_encode, List.take_left, List.drop_left]
  exact protoParse_value_field v (some k) v0 fuel (by omega)

theorem marshalKV_eq (k v : List Nat) (hk : k ≠ []) (hv : v ≠ []) :
    marshalKV k v = 10 :: (varintEncode k.length ++ (k ++ (18
      :: (varintEncode v.length ++ v)))) := by
  simp [marshalKV, hk, hv]

theorem marshalKV_length_pos (k v : List Nat) (hk : k ≠ []) (hv : v ≠ []) :
    2 ≤ (marshalKV k v).length := by
  rw [marshalKV_eq k v hk hv]
  simp
  omega

theorem unmarshal_marshal (k v : List Nat) (hk : k ≠ []) (hv : v ≠ []) :
    unmarshalProto (marshalKV k v) = some (k, v) := by
  unfold unmarshalProto
  rw [marshalKV_eq k v hk hv] at *
  rw [protoParse_marshal k v none none _
    (by
      have := marshalKV_length_pos k v hk hv
      rw [marshalKV_eq k v hk hv] at this
      exact this)]

theorem tdiv_eq_ediv_of_nonneg {a b : Int} (ha : 0 ≤ a) (hb : 0 ≤ b) :
    Int.tdiv a b = a / b := by
  match a, ha, b, hb with
  | Int.ofNat m, _, Int.ofNat n, _ => rfl

/-! ## Index map lemmas -/

theorem lookupKey_setKey_self (m : List (List Nat × RecordPointer))
    (k : List Nat) (p : RecordPointer) :
    lookupKey (setKey m k p) k = some p := by
  induction m with
  | nil => simp [setKey, lookupKey]
  | cons kv rest ih =>
    obtain ⟨k', p'⟩ := kv
    by_cases h : k' = k
    · simp [setKey, h, lookupKey]
    · simp [setKey, h, lookupKey, ih]

/-! ## Read-back of an appended record -/

/-- Reading via `readRecordAt` at the position where a record for `(k, v)` was appended
returns exactly that record. -/
theorem readRecordAt_readback (pre post k v : List Nat) (now : Int)
    (hk : k ≠ []) (hv : v ≠ [])
    (hsize : (marshalKV k v).length ≤ maxValueSize)
    (ht0 : 0 ≤ now) (ht1 : now < 2 ^ 63) :
    readRecordAt (pre ++ (encodeRecordHeader (mkHeader k v now)
      ++ (marshalKV k v ++ post))) pre.length
      = .ok { header := mkHeader k v now, key := k, value := v } := by
  set h := mkHeader k v now with hh
  set H := encodeRecordHeader h with hH
  set P := marshalKV k v with hP
  have lenH : H.length = 17 := encodeRecordHeader_length h
  have lenfile : (pre ++ (H ++ (P ++ post))).length
      = pre.length + (17 + (P.length + post.length)) := by
    simp [lenH]
  have hps : h.payloadSize = P.length := by rw [hh, hP]; rfl
  have hts : h.timestamp = now / 1000000000 := by
    rw [hh]
    show Int.tdiv now 1000000000 = now / 1000000000
    exact tdiv_eq_ediv_of_nonneg ht0 (by norm_num)
  have htsb0 : -(2 ^ 63) ≤ h.timestamp := by rw [hts]; omega
  have htsb1 : h.timestamp < 2 ^ 63 := by rw [hts]; omega
  have hdec : decodeRecordHeader H = h := by
    rw [hH]
    exact decode_encode_header (crc32_lt _)
      (by
        rw [hps]
        have : maxValueSize < 2 ^ 32 := by norm_num [maxValueSize]
        omega)
      htsb0 htsb1 (by rw [hh]; norm_num [mkHeader])
  have hdrop : (pre ++ (H ++ (P ++ post))).drop pre.length = H ++ (P ++ post) :=
    List.drop_left _ _
  have hPpos : P.length ≠ 0 := by
    have := marshalKV_length_pos k v hk hv
    rw [← hP] at this
    omega
  unfold readRecordAt
  rw [lenfile]
  rw [if_neg (by omega), if_neg (by omega)]
  rw [hdrop, List.take_left' lenH, hdec]
  rw [if_neg (by rw [hps]; exact hPpos)]
  rw [if_neg (by rw [hps]; omega)]
  rw [if_neg (by rw [hh]; simp [mkHeader, minSchemaVersion, maxSchemaVersion])]
  have hdrop17 : (pre ++ (H ++ (P ++ post))).drop (pre.length + 17)
      = P ++ post := by
    have hassoc : pre ++ (H ++ (P ++ post)) = (pre ++ H) ++ (P ++ post) := by
      rw [List.append_assoc]
    rw [hassoc]
    exact List.drop_left' (by simp [lenH])
  have hbuf : ((pre ++ (H ++ (P ++ post))).drop (pre.length + 17)).take
      h.payloadSize = P := by
    rw [hdrop17, hps]
    exact List.take_left _ _
  simp only [ite_self]
  rw [if_pos (by rw [hps]; omega)]
  rw [hbuf, hP]
  simp only [unmarshal_marshal k v hk hv]
  rw [if_pos (by rw [hh]; rfl)]

/-- Evaluation of `engineSet` on an open engine with a live index map and a
successful storage append. -/
theorem engineSet_open_ok (e : EngineState)
    (m : List (List Nat × RecordPointer)) (k v : List Nat) (now : Int)
    (hc : e.closed = false) (hm : e.index = some m) :
    engineSet e k v now .ok
      = some ({ e with
          storage := { e.storage with
            file := e.storage.file ++ encodeRecordHeader (mkHeader k v now)
              ++ marshalKV k v }
          index := some (setKey m k
            { expiresAt := 0
              offset := e.storage.currentOffset
              segmentTimestamp := e.storage.activeSegmentCreatedAt
              segmentID := e.storage.activeSegmentID }) }, none) := by
  simp only [engineSet, hc, Bool.false_eq_true, if_false, storageSet, hm,
    indexSet]

/-- C1: the offset-tracking bug.  `Storage.Set` does return the offset the
storage held before the write, but the kvix `Set` never advances
`currentOffset`, so after the write the current offset is NOT the returned
offset plus `17 + payload_size`: it is unchanged.  Consequently, after a
second set of the same key (payload size 6, so the claim predicts offset
`0 + 17 + 6 = 23`), the second `Set` again returns offset 0, the index
locator still points at offset 0 — the first record — and `get` returns the
FIRST value `"a"`, not the overwriting value `"b"`. -/
theorem c1_offset_never_advances_code_bug :
    engineSet sampleEngine [107] [97] 0 .ok = some (c1State1, none)
    ∧ (marshalKV [107] [97]).length = 6
    ∧ storageSet c1State1.storage [107] [98] 0 .ok
        = (c1State2.storage, .ok (⟨mkHeader [107] [98] 0, [107], [98]⟩, 0))
    ∧ c1State2.storage.currentOffset = 0
    ∧ engineSet c1State1 [107] [98] 0 .ok = some (c1State2, none)
    ∧ c1State2.index = some [([107], ⟨0, 0, 5, 1⟩)]
    ∧ engineGet c1State2 emptyPool [107] 0
        = some (c1State2, (some ⟨mkHeader [107] [97] 0, [107], [97]⟩, none)) := by
  exact ⟨by decide, by decide, by decide, by decide, by decide, rfl, by decide⟩


/-! ## Decimal digit, split and filename lemmas -/

theorem digCh_isDigit : ∀ d, d < 10 → (digCh d).isDigit = true := by decide

theorem digCh_toNat : ∀ d, d < 10 → (digCh d).toNat = 48 + d := by decide

theorem isDigit_ne {c : Char} (h : c.isDigit = true) :
    c ≠ '-' ∧ c ≠ '+' ∧ c ≠ '_' ∧ c ≠ '.' ∧ c ≠ '/' := by
  refine ⟨?_, ?_, ?_, ?_, ?_⟩ <;> rintro rfl <;> exact absurd h (by decide)

theorem natDigitsAux_digits (fuel : Nat) : ∀ n, n < fuel →
    ∀ c ∈ natDigitsAux fuel n, c.isDigit = true := by
  induction fuel with
  | zero => intro n h; omega
  | succ fuel ih =>
    intro n h c hc
    by_cases h10 : n < 10
    · simp [natDigitsAux, h10] at hc
      rw [hc]
      exact digCh_isDigit n h10
    · simp [natDigitsAux, h10] at hc
      rcases hc with hc | hc
      · exact ih (n / 10) (by omega) c hc
      · rw [hc]
        exact digCh_isDigit _ (by omega)

theorem natDigits_digits (n : Nat) : ∀ c ∈ natDigits n, c.isDigit = true :=
  natDigitsAux_digits (n + 1) n (Nat.lt_succ_self n)

theorem natDigits_ne_nil (n : Nat) : natDigits n ≠ [] := by
  unfold natDigits natDigitsAux
  by_cases h : n < 10 <;> simp [h]

theorem digitsAux_append (a b : List Char) : ∀ acc m,
    digitsAux acc a = some m → digitsAux acc (a ++ b) = digitsAux m b := by
  induction a with
  | nil =>
    intro acc m h
    simp [digitsAux] at h
    rw [h]
    simp
  | cons c cs ih =>
    intro acc m h
    by_cases hd : c.isDigit = true
    · simp only [digitsAux, hd, if_true, List.cons_append, if_pos] at h ⊢
      exact ih _ _ h
    · simp [digitsAux, hd] at h

theorem digitsAux_natDigitsAux (fuel : Nat) : ∀ n acc, n < fuel →
    digitsAux acc (natDigitsAux fuel n)
      = some (acc * 10 ^ (natDigitsAux fuel n).length + n) := by
  induction fuel with
  | zero => intro n acc h; omega
  | succ fuel ih =>
    intro n acc h
    by_cases h10 : n < 10
    · simp [natDigitsAux, h10, digitsAux, digCh_isDigit n h10,
        digCh_toNat n h10]
    · have hlt : n / 10 < fuel := by omega
      have ihh := ih (n / 10) acc hlt
      have happ := digitsAux_append (natDigitsAux fuel (n / 10))
        [digCh (n % 10)] acc _ ihh
      simp only [natDigitsAux, if_neg h10]
      rw [happ]
      have hm10 : n % 10 < 10 := by omega
      simp [digitsAux, digCh_isDigit _ hm10, digCh_toNat _ hm10,
        List.length_append, pow_succ]
      have hassoc : acc * (10 ^ (natDigitsAux fuel (n / 10)).length * 10)
          = acc * 10 ^ (natDigitsAux fuel (n / 10)).length * 10 := by ring
      rw [hassoc]
      omega

theorem digitsToNat_natDigits (n : Nat) : digitsToNat (natDigits n) = some n := by
  have h := digitsAux_natDigitsAux (n + 1) n 0 (Nat.lt_succ_self n)
  have hne := natDigits_ne_nil n
  unfold digitsToNat
  cases hnn : natDigits n with
  | nil => exact absurd hnn hne
  | cons c cs =>
    show digitsAux 0 (c :: cs) = some n
    rw [← hnn]
    show digitsAux 0 (natDigitsAux (n + 1) n) = some n
    rw [h]
    simp

theorem digitsAux_zeros : ∀ z acc,
    digitsAux acc (List.replicate z '0') = some (acc * 10 ^ z) := by
  intro z
  induction z with
  | zero => intro acc; simp [digitsAux]
  | succ z ih =>
    intro acc
    simp only [List.replicate, digitsAux, show ('0').isDigit = true from rfl,
      if_true]
    rw [show ('0').toNat - 48 = 0 from rfl, Nat.add_zero, ih]
    have : acc * 10 * 10 ^ z = acc * 10 ^ (z + 1) := by ring
    rw [this]

theorem pad5_digits (id : Nat) : ∀ c ∈ pad5 id, c.isDigit = true := by
  intro c hc
  unfold pad5 at hc
  rcases List.mem_append.mp hc with hc | hc
  · rw [List.eq_of_mem_replicate hc]
    decide
  · exact natDigits_digits id c hc

theorem pad5_ne_nil (id : Nat) : pad5 id ≠ [] := by
  unfold pad5
  intro h
  rcases List.append_eq_nil.mp h with ⟨_, h2⟩
  exact natDigits_ne_nil id h2

theorem digitsToNat_pad5 (id : Nat) : digitsToNat (pad5 id) = some id := by
  have hz := digitsAux_zeros (5 - (natDigits id).length) 0
  have happ := digitsAux_append (List.replicate (5 - (natDigits id).length) '0')
    (natDigits id) 0 _ hz
  have hd := digitsAux_natDigitsAux (id + 1) id (0 * 10 ^ (5 - (natDigits id).length)) (Nat.lt_succ_self id)
  unfold digitsToNat
  cases hp : pad5 id with
  | nil => exact absurd hp (pad5_ne_nil id)
  | cons c cs =>
    show digitsAux 0 (c :: cs) = some id
    rw [← hp]
    unfold pad5
    rw [happ]
    show digitsAux (0 * 10 ^ (5 - (natDigits id).length))
      (natDigitsAux (id + 1) id) = some id
    rw [hd]
    simp

theorem atoi_of_digits (s : List Char) (hne : s ≠ [])
    (hdig : ∀ c ∈ s, c.isDigit = true) (m : Nat)
    (h : digitsToNat s = some m) : atoi s = some (m : Int) := by
  cases s with
  | nil => exact absurd rfl hne
  | cons c cs =>
    have hcd := hdig c (by simp)
    obtain ⟨h1, h2, _, _, _⟩ := isDigit_ne hcd
    simp only [atoi]
    rw [if_neg h1, if_neg h2, h]
    rfl

theorem atoi_pad5 (id : Nat) : atoi (pad5 id) = some (id : Int) :=
  atoi_of_digits _ (pad5_ne_nil id) (pad5_digits id) id (digitsToNat_pad5 id)

theorem atoi_natDigits (m : Nat) : atoi (natDigits m) = some (m : Int) :=
  atoi_of_digits _ (natDigits_ne_nil m) (natDigits_digits m) m
    (digitsToNat_natDigits m)

theorem splitChar_ne_nil (sep : Char) (s : List Char) :
    splitChar sep s ≠ [] := by
  cases s with
  | nil => simp [splitChar]
  | cons c cs =>
    unfold splitChar
    cases splitChar sep cs <;> by_cases h : c = sep <;> simp [h]

theorem splitChar_no_sep (sep : Char) (s : List Char)
    (h : ∀ c ∈ s, c ≠ sep) : splitChar sep s = [s] := by
  induction s with
  | nil => rfl
  | cons c cs ih =>
    have hc : c ≠ sep := h c (by simp)
    have ihh : splitChar sep cs = [cs] := ih (fun x hx => h x (by simp [hx]))
    unfold splitChar
    rw [ihh]
    simp [hc]

theorem splitChar_sep_append (sep : Char) (a b : List Char)
    (h : ∀ c ∈ a, c ≠ sep) :
    splitChar sep (a ++ sep :: b) = a :: splitChar sep b := by
  induction a with
  | nil =>
    simp only [List.nil_append]
    conv_lhs => rw [splitChar.eq_def]
    cases hb : splitChar sep b with
    | nil => exact absurd hb (splitChar_ne_nil sep b)
    | cons x t => simp [hb]
  | cons x xs ih =>
    have hx : x ≠ sep := h x (by simp)
    have ihh := ih (fun c hc => h c (by simp [hc]))
    simp only [List.cons_append]
    conv_lhs => rw [splitChar.eq_def]
    simp [ihh, hx]

theorem baseName_no_slash (s : List Char) (h : ∀ c ∈ s, c ≠ '/') :
    baseName s = s := by
  unfold baseName
  have ht : s.reverse.takeWhile (fun c => c ≠ '/') = s.reverse := by
    apply List.takeWhile_eq_self_iff.mpr
    intro a ha
    simp only [ne_eq, decide_eq_true_eq]
    exact h a (List.mem_reverse.mp ha)
  rw [ht, List.reverse_reverse]

theorem hasPfx_nil (s : List Char) : hasPfx s [] = true := by
  cases s <;> rfl

theorem hasPfx_append (p r : List Char) : hasPfx (p ++ r) p = true := by
  induction p with
  | nil => simp [hasPfx_nil]
  | cons c cs ih => simp [hasPfx, ih]

/-- C2: the TTL time-base bug.  After `set_with_ttl("k", "v", ttl = 1ms)` at
instant `t0 = 1700000000000000000 ns`, the instant `t0 + 10 ms` has passed the
stored expiry `t0 + 1 ms`, yet `get("k")` still returns the record and the
entry stays in the index map, because `RecordPointer.IsExpired` compares the
millisecond clock `time.Now().UnixMilli()` against the nanosecond `ExpiresAt`
field.  The claimed behaviour (miss plus removal) does not occur. -/
theorem c2_ttl_expiry_code_bug :
    engineSetX sampleEngine [107] [118] 1700000000000000000 1000000 .ok
      = some (c2State, (some ⟨mkHeader [107] [118] 1700000000000000000,
        [107], [118]⟩, none))
    ∧ (1700000000000000000 + 10000000 : Int) > 1700000000000000000 + 1000000
    ∧ engineGet c2State emptyPool [107] (1700000000000000000 + 10000000)
      = some (c2State, (some ⟨mkHeader [107] [118] 1700000000000000000,
        [107], [118]⟩, none))
    ∧ c2State.index = some [([107], ⟨1700000000001000000, 0, 5, 1⟩)] := by
  exact ⟨by decide, by decide, by decide, rfl⟩

/-- C3: error swallowing on active-segment reads.  After a clean write of
`("k", "val")` one payload byte is flipped on disk.  The read body does
detect the corruption as a checksum mismatch, and a historical-segment read
surfaces `ErrRecordChecksumMismatch`; but on the active segment the deferred
`_, err = s.activeSegment.Seek(0, io.SeekEnd)` overwrites the named error
return, so `Storage.Get` returns `(nil, nil)`: no record and no error. -/
theorem c3_checksum_swallowed_code_bug :
    storageGetBody c3Corrupted emptyPool 1 5 0
      = .error .recordChecksumMismatch
    ∧ storageGet c3Corrupted emptyPool [107] 1 5 0 = (none, none)
    ∧ storageGet c3Corrupted
        (fun sid _ => if sid = 2 then some c3Corrupted.file else none)
        [107] 2 5 0
      = (none, some .recordChecksumMismatch) := by
  exact ⟨by decide, by decide, by decide⟩

/-- Shared decomposition: parsing any generated name (prefix without `/`)
yields the parts `[[], pad5 id, decimal ts]`. -/
theorem generated_name_parts (id : Nat) (pfx : List Char) (ts : Int)
    (hpfx : pfx ≠ []) (hslash : ∀ c ∈ pfx, c ≠ '/') (hts : 0 ≤ ts) :
    let filename := baseName (generateNameWithTimestamp id pfx ts)
    hasPfx filename pfx = true ∧
    splitChar '_' ((splitChar '.' (filename.drop pfx.length)).headD [])
      = [[], pad5 id, natDigits ts.toNat] := by
  intro filename
  have hint : intDigits ts = natDigits ts.toNat := by
    unfold intDigits
    rw [if_neg (by omega)]
  have hgen : generateNameWithTimestamp id pfx ts
      = pfx ++ ('_' :: (pad5 id ++ ('_' :: (natDigits ts.toNat
          ++ ['.', 's', 'e', 'g'])))) := by
    unfold generateNameWithTimestamp
    rw [if_neg hpfx, hint]
    simp
  have hpadd := pad5_digits id
  have htsd := natDigits_digits ts.toNat
  have hnoslash : ∀ c ∈ generateNameWithTimestamp id pfx ts, c ≠ '/' := by
    rw [hgen]
    intro c hc
    simp at hc
    rcases hc with hc | hc | hc | hc | hc | hc | hc | hc | hc <;>
      first
        | exact hslash c hc
        | (rw [hc]; decide)
        | exact (isDigit_ne (hpadd c hc)).2.2.2.2
        | exact (isDigit_ne (htsd c hc)).2.2.2.2
  have hbase : filename = generateNameWithTimestamp id pfx ts :=
    baseName_no_slash _ hnoslash
  constructor
  · rw [hbase, hgen]
    exact hasPfx_append pfx _
  · rw [hbase, hgen, List.drop_left]
    have hdot : ('_' :: (pad5 id ++ ('_' :: (natDigits ts.toNat
        ++ ['.', 's', 'e', 'g']))))
        = ('_' :: (pad5 id ++ ('_' :: natDigits ts.toNat)))
          ++ '.' :: ['s', 'e', 'g'] := by
      simp
    rw [hdot, splitChar_sep_append '.' _ _ (by
      intro c hc
      simp only [List.mem_cons, List.mem_append] at hc
      rcases hc with hc | hc | hc | hc
      · rw [hc]; decide
      · exact (isDigit_ne (hpadd c hc)).2.2.2.1
      · rw [hc]; decide
      · exact (isDigit_ne (htsd c hc)).2.2.2.1)]
    simp only [List.headD_cons]
    have hu1 : ('_' :: (pad5 id ++ ('_' :: natDigits ts.toNat)))
        = [] ++ '_' :: (pad5 id ++ ('_' :: natDigits ts.toNat)) := rfl
    rw [hu1, splitChar_sep_append '_' [] _ (by intro c hc; exact absurd hc (List.not_mem_nil c))]
    rw [splitChar_sep_append '_' (pad5 id) _ (by
      intro c hc
      exact (isDigit_ne (hpadd c hc)).2.2.1)]
    rw [splitChar_no_sep '_' (natDigits ts.toNat) (by
      intro c hc
      exact (isDigit_ne (htsd c hc)).2.2.1)]

/-- C4 (amended): the filename codec round-trips for every id in
`[0, 65535]`, every non-empty prefix **that contains no path separator**,
and every timestamp `ts ≥ 0`. -/
theorem c4_roundtrip_amended (id : Nat) (pfx : List Char) (ts : Int)
    (hid : id ≤ 65535) (hpfx : pfx ≠ []) (hslash : ∀ c ∈ pfx, c ≠ '/')
    (hts : 0 ≤ ts) :
    parseSegmentID (generateNameWithTimestamp id pfx ts) pfx = .ok id
    ∧ parseSegmentTimestamp (generateNameWithTimestamp id pfx ts) pfx
      = .ok ts := by
  obtain ⟨hpf, hparts⟩ := generated_name_parts id pfx ts hpfx hslash hts
  constructor
  · simp only [parseSegmentID, hpf, if_true, hparts]
    rw [if_neg (by simp)]
    simp only [List.getD_cons_succ, List.getD_cons_zero]
    rw [atoi_pad5]
    have hu : u16ofInt (id : Int) = id := by
      unfold u16ofInt
      omega
    simp [hu]
  · simp only [parseSegmentTimestamp, hpf, if_true, hparts]
    rw [if_neg (by simp)]
    simp only [List.getD_cons_succ, List.getD_cons_zero]
    rw [atoi_natDigits]
    simp [Int.toNat_of_nonneg hts]

/-- Counterexample to C4 as stated: the prefix `"a/b"` is non-empty, yet
parsing the id back out of the generated name fails (the directory part is
split off at the `/`, after which the prefix check fails). -/
theorem c4_counterexample :
    (['a', '/', 'b'] : List Char) ≠ [] ∧
    ¬ (parseSegmentID (generateNameWithTimestamp 1 ['a', '/', 'b'] 0)
        ['a', '/', 'b'] = .ok 1) := by
  exact ⟨by decide, by decide⟩

/-- Witness for the amended C4 at `id = 7`, prefix `"seg"`, `ts = 12`. -/
theorem c4_witness :
    parseSegmentID (generateNameWithTimestamp 7 ['s', 'e', 'g'] 12)
      ['s', 'e', 'g'] = .ok 7
    ∧ parseSegmentTimestamp (generateNameWithTimestamp 7 ['s', 'e', 'g'] 12)
      ['s', 'e', 'g'] = .ok 12 :=
  c4_roundtrip_amended 7 ['s', 'e', 'g'] 12 (by decide) (by decide)
    (by decide) (by decide)

/-- C5: storage construction applies exactly one of three cases: fresh start
(id 1, offset 0, new file), rotation at open (last id + 1 as `uint16`,
offset 0, new file), or adoption (last id, timestamp parsed from the
filename, offset = file size). -/
theorem c5_open_three_cases (disc : Option DiscoveredSeg) (maxSize : Nat)
    (pfx : List Char) (now : Int) :
    (disc = none →
      storageNew disc maxSize pfx now = .ok ⟨1, now, 0, true⟩)
    ∧ (∀ d, disc = some d → maxSize ≤ d.size →
      storageNew disc maxSize pfx now
        = .ok ⟨(d.id + 1) % 65536, now, 0, true⟩)
    ∧ (∀ d ts, disc = some d → d.size < maxSize →
      parseSegmentTimestamp d.name pfx = .ok ts →
      storageNew disc maxSize pfx now
        = .ok ⟨d.id, ts, d.size, decide (d.size = 0)⟩)
    ∧ (disc = none ∨ (∃ d, disc = some d ∧ maxSize ≤ d.size)
        ∨ (∃ d, disc = some d ∧ d.size < maxSize)) := by
  refine ⟨?_, ?_, ?_, ?_⟩
  · intro h
    rw [h]
    rfl
  · intro d h hsz
    rw [h]
    simp only [storageNew]
    rw [if_pos hsz]
  · intro d ts h hsz hp
    rw [h]
    simp only [storageNew, hp]
    rw [if_neg (by omega)]
  · cases disc with
    | none => exact Or.inl rfl
    | some d =>
      rcases le_or_lt maxSize d.size with hle | hlt
      · exact Or.inr (Or.inl ⟨d, rfl, hle⟩)
      · exact Or.inr (Or.inr ⟨d, rfl, hlt⟩)

/-- Witness for C5: one concrete instance of each of the three cases. -/
theorem c5_witness :
    storageNew (some ⟨3, 100,
        generateNameWithTimestamp 3 ['s', 'e', 'g'] 42⟩) 200 ['s', 'e', 'g'] 7
      = .ok ⟨3, 42, 100, false⟩
    ∧ storageNew (some ⟨3, 300,
        generateNameWithTimestamp 3 ['s', 'e', 'g'] 42⟩) 200 ['s', 'e', 'g'] 7
      = .ok ⟨4, 7, 0, true⟩
    ∧ storageNew none 200 ['s', 'e', 'g'] 7 = .ok ⟨1, 7, 0, true⟩ := by
  refine ⟨?_, ?_, ?_⟩
  · exact (c5_open_three_cases _ 200 ['s', 'e', 'g'] 7).2.2.1
      ⟨3, 100, generateNameWithTimestamp 3 ['s', 'e', 'g'] 42⟩ 42 rfl
      (by decide) (by decide)
  · exact (c5_open_three_cases _ 200 ['s', 'e', 'g'] 7).2.1
      ⟨3, 300, generateNameWithTimestamp 3 ['s', 'e', 'g'] 42⟩ rfl (by decide)
  · exact (c5_open_three_cases _ 200 ['s', 'e', 'g'] 7).1 rfl

/-- C6: when the storage append fails, `Engine.Set` returns exactly the
storage error and the index mapping is untouched. -/
theorem c6_set_failure_index_unchanged (e : EngineState) (k v : List Nat)
    (now : Int) (w : WriteOutcome) (hc : e.closed = false)
    (hw : w ≠ .ok) :
    ∃ st' err,
      storageSet e.storage k v now w = (st', .error err)
      ∧ engineSet e k v now w = some ({ e with storage := st' }, some err)
      ∧ ({ e with storage := st' } : EngineState).index = e.index := by
  cases w with
  | ok => exact absurd rfl hw
  | headerFail =>
    exact ⟨_, _, rfl,
      by simp only [engineSet, hc, Bool.false_eq_true, if_false, storageSet],
      rfl⟩
  | payloadFail =>
    exact ⟨_, _, rfl,
      by simp only [engineSet, hc, Bool.false_eq_true, if_false, storageSet],
      rfl⟩
  | shortWrite n =>
    exact ⟨_, _, rfl,
      by simp only [engineSet, hc, Bool.false_eq_true, if_false, storageSet],
      rfl⟩

/-- Witness for C6 at a concrete engine and a header-write failure. -/
theorem c6_witness :
    ∃ st' err,
      storageSet sampleEngine.storage [1] [2] 0 .headerFail
        = (st', .error err)
      ∧ engineSet sampleEngine [1] [2] 0 .headerFail
        = some ({ sampleEngine with storage := st' }, some err)
      ∧ ({ sampleEngine with storage := st' } : EngineState).index
        = sampleEngine.index :=
  c6_set_failure_index_unchanged sampleEngine [1] [2] 0 .headerFail rfl
    (by decide)

/-- C7: after a successful `Engine.Close`, every public operation returns the
engine-closed error and leaves the state unchanged, and a second `Close` is
rejected by the compare-and-set. -/
theorem c7_closed_engine_ops (e : EngineState) (hc : e.closed = false)
    (k v : List Nat) (now ttl : Int) (w : WriteOutcome) (pool : SegmentPool)
    (c2 : CloseOutcome) :
    (engineClose e .ok).2 = none
    ∧ (engineClose e .ok).1.closed = true
    ∧ engineSet (engineClose e .ok).1 k v now w
        = some ((engineClose e .ok).1, some .engineClosed)
    ∧ engineSetX (engineClose e .ok).1 k v now ttl w
        = some ((engineClose e .ok).1, (none, some .engineClosed))
    ∧ engineGet (engineClose e .ok).1 pool k now
        = some ((engineClose e .ok).1, (none, some .engineClosed))
    ∧ engineDelete (engineClose e .ok).1 k
        = ((engineClose e .ok).1, false, some .engineClosed)
    ∧ engineExists (engineClose e .ok).1 k now
        = ((engineClose e .ok).1, false, some .engineClosed)
    ∧ engineCleanup (engineClose e .ok).1 now
        = ((engineClose e .ok).1, some .engineClosed)
    ∧ engineClose (engineClose e .ok).1 c2
        = ((engineClose e .ok).1, some .engineClosed) := by
  have h1 : engineClose e .ok
      = ({ e with closed := true, index := none }, none) := by
    simp [engineClose, hc, indexClose, storageClose]
  rw [h1]
  simp [engineSet, engineSetX, engineGet, engineDelete, engineExists,
    engineCleanup, engineClose]

/-- Witness for C7 at the fresh sample engine. -/
theorem c7_witness :
    (engineClose sampleEngine .ok).2 = none
    ∧ (engineClose sampleEngine .ok).1.closed = true
    ∧ engineSet (engineClose sampleEngine .ok).1 [1] [2] 0 .ok
        = some ((engineClose sampleEngine .ok).1, some .engineClosed)
    ∧ engineSetX (engineClose sampleEngine .ok).1 [1] [2] 0 0 .ok
        = some ((engineClose sampleEngine .ok).1, (none, some .engineClosed))
    ∧ engineGet (engineClose sampleEngine .ok).1 emptyPool [1] 0
        = some ((engineClose sampleEngine .ok).1, (none, some .engineClosed))
    ∧ engineDelete (engineClose sampleEngine .ok).1 [1]
        = ((engineClose sampleEngine .ok).1, false, some .engineClosed)
    ∧ engineExists (engineClose sampleEngine .ok).1 [1] 0
        = ((engineClose sampleEngine .ok).1, false, some .engineClosed)
    ∧ engineCleanup (engineClose sampleEngine .ok).1 0
        = ((engineClose sampleEngine .ok).1, some .engineClosed)
    ∧ engineClose (engineClose sampleEngine .ok).1 .ok
        = ((engineClose sampleEngine .ok).1, some .engineClosed) :=
  c7_closed_engine_ops sampleEngine rfl [1] [2] 0 0 .ok emptyPool .ok

/-- Counterexample to C8 as stated: 169 hours is above the documented
168-hour maximum, yet `WithCompactInterval` accepts it instead of keeping
the prior (default) value. -/
theorem c8_counterexample :
    maxCompactInterval < 169 * 3600 * 1000000000
    ∧ (withCompactInterval (169 * 3600 * 1000000000)
        defaultOptions).compactInterval = 169 * 3600 * 1000000000
    ∧ (169 * 3600 * 1000000000 : Int) ≠ defaultOptions.compactInterval := by
  exact ⟨by decide, by decide, by decide⟩

/-- C8 (amended): `WithCompactInterval d` sets the interval exactly when
`d` is strictly greater than the 5-hour default; no upper bound is
enforced (the 168-hour `MaxCompactInterval` constant is unused). -/
theorem c8_interval_amended (d : Int) (o : Options) :
    (defaultCompactInterval < d →
      withCompactInterval d o = { o with compactInterval := d })
    ∧ (d ≤ defaultCompactInterval → withCompactInterval d o = o) := by
  constructor
  · intro h
    unfold withCompactInterval
    rw [if_pos h]
  · intro h
    unfold withCompactInterval
    rw [if_neg (by omega)]

/-- Witness for the amended C8 at 6 hours (accepted) and 1 hour (kept). -/
theorem c8_witness :
    withCompactInterval (6 * 3600 * 1000000000) defaultOptions
      = { defaultOptions with compactInterval := 6 * 3600 * 1000000000 }
    ∧ withCompactInterval (3600 * 1000000000) defaultOptions
      = defaultOptions :=
  ⟨(c8_interval_amended (6 * 3600 * 1000000000) defaultOptions).1 (by decide),
   (c8_interval_amended (3600 * 1000000000) defaultOptions).2 (by decide)⟩

/-- C9: `Engine.Exists` goes through `Index.Get` and so lazily evicts: on an
expired entry it returns `false` and removes the entry; on a live entry it
returns `true` and changes nothing. -/
theorem c9_exists_lazy_eviction (e : EngineState)
    (m : List (List Nat × RecordPointer)) (k : List Nat) (p : RecordPointer)
    (now : Int) (hc : e.closed = false) (hm : e.index = some m)
    (hl : lookupKey m k = some p) :
    (isExpired now p = true →
      engineExists e k now
        = ({ e with index := some (deleteKey m k) }, false, none))
    ∧ (isExpired now p = false →
      engineExists e k now = (e, true, none)) := by
  constructor
  · intro hx
    simp only [engineExists, hc, Bool.false_eq_true, if_false, indexGet, hm,
      hl, hx, if_true]
    rfl
  · intro hx
    simp only [engineExists, hc, Bool.false_eq_true, if_false, indexGet, hm,
      hl, hx, if_false]
    rw [← hc, ← hm]
    rfl

/-- Witness for C9: an expired entry is evicted by `Exists`; a live entry is
untouched. -/
theorem c9_witness :
    engineExists ⟨false, some [([5], ⟨1, 0, 0, 1⟩)], sampleStorage⟩
      [5] 3000000
      = (⟨false, some [], sampleStorage⟩, false, none)
    ∧ engineExists ⟨false, some [([5], ⟨0, 0, 0, 1⟩)], sampleStorage⟩
      [5] 3000000
      = (⟨false, some [([5], ⟨0, 0, 0, 1⟩)], sampleStorage⟩, true, none) := by
  constructor
  · exact (c9_exists_lazy_eviction _ [([5], ⟨1, 0, 0, 1⟩)] [5] ⟨1, 0, 0, 1⟩
      3000000 rfl rfl rfl).1 (by decide)
  · exact (c9_exists_lazy_eviction _ [([5], ⟨0, 0, 0, 1⟩)] [5] ⟨0, 0, 0, 1⟩
      3000000 rfl rfl rfl).2 (by decide)

/-- C10: after `Index.Close` sets the map to `nil`, `Get` and `Delete` are
safe misses but `Set` faults (assignment into a nil map); the engine's
closed flag is the only guard: a closed engine returns normally, while an
open engine with a closed index faults on `Set`. -/
theorem c10_index_after_close (idx : IndexState) (k v : List Nat)
    (p : RecordPointer) (now t : Int) (st : StorageState)
    (w : WriteOutcome) :
    indexGet (indexClose idx) k now = (none, none)
    ∧ indexDelete (indexClose idx) k = (none, false)
    ∧ indexSet (indexClose idx) k p = none
    ∧ engineSet { closed := true, index := indexClose idx, storage := st }
        k v t w
      = some ({ closed := true, index := indexClose idx, storage := st },
        some .engineClosed)
    ∧ engineSet { closed := false, index := indexClose idx, storage := st }
        k v t .ok = none := by
  refine ⟨rfl, rfl, rfl, rfl, ?_⟩
  simp [engineSet, storageSet, indexSet, indexClose]

end Kvix
